import Mathlib

/-!
Verification of the tinyML-benchmark-Beaglebone scripts.

The repository holds two benchmarking scripts:
  * `MLTK_keyworkSpotting/run_benchmark.py` (audio variant, namespace `KWS`)
  * `mobileNetV2/run_benchmark.py` (image variant, namespace `MNV2`)

Each script is embedded shallowly: filesystem contents, the inference
engine and the OS clock are abstracted into explicit environment
parameters (outcome functions, duration functions), and the loops become
structural recursions over the list of dataset paths.  Numeric samples
(latencies, CPU%, memory%) are modelled as rationals.
-/

set_option autoImplicit false

deriving instance DecidableEq for Except

/-- Python's `str.lower()`: lower-case each character. -/
def lower (s : String) : String := ⟨s.data.map Char.toLower⟩

/-- Python's `str.endswith(t)`: `t`'s characters are a suffix of `s`'s. -/
def endsWithStr (s t : String) : Bool := List.isSuffixOf t.data s.data

/-- A cell of the output CSV: the scripts write iteration counters (ints),
header captions (strings) and metric samples (floats, modelled as ℚ). -/
inductive CsvField where
  | nat : Nat → CsvField
  | str : String → CsvField
  | rat : ℚ → CsvField
deriving DecidableEq

/-- Shape of `np.expand_dims(a, axis=-1)`. -/
def expand_dims_last (s : List Nat) : List Nat := s ++ [1]

/-- Shape of `np.expand_dims(a, axis=0)`. -/
def expand_dims_batch (s : List Nat) : List Nat := 1 :: s

/-- `np.max` over a flattened output tensor: the running maximum of the
entries.  (`np.max` raises on an empty array; model outputs are never
empty, the `0` default is unreachable in a real run.) -/
def np_max : List ℚ → ℚ
  | [] => 0
  | x :: xs => xs.foldl max x

/-- Helper for `np_argmax`: scan the remaining entries, keeping the value
and index of the strict maximum seen so far (first occurrence wins, as in
numpy). -/
def np_argmax_go : List ℚ → ℚ → Nat → Nat → Nat
  | [], _, bestIdx, _ => bestIdx
  | x :: xs, best, bestIdx, idx =>
    if best < x then np_argmax_go xs x idx (idx + 1)
    else np_argmax_go xs best bestIdx (idx + 1)

/-- `np.argmax` over a flattened output tensor. -/
def np_argmax : List ℚ → Nat
  | [] => 0
  | x :: xs => np_argmax_go xs x 0 1

/-- One matplotlib figure: its output file name and whether rendering it
succeeds in this run (the rendering backend is external). -/
structure PlotStep where
  name : String
  ok : Bool

/-- Render a list of plots in order, as the `save_visualizations`
functions do: each successful plot is saved to its own file; the scripts
wrap no plot in a `try`, so the first failing plot raises and the
remaining plots are not attempted.  Returns the files written and
`some name` of the failing plot (the propagating exception), if any. -/
def renderPlots : List PlotStep → List String × Option String
  | [] => ([], none)
  | p :: rest =>
    if p.ok then
      let (ws, err) := renderPlots rest
      (p.name :: ws, err)
    else ([], some p.name)

namespace KWS

/-! ### Audio variant: `MLTK_keyworkSpotting/run_benchmark.py` -/

/-- `file.lower().endswith('.wav')`. -/
def isWav (f : String) : Bool := endsWithStr (lower f) ".wav"

/-- `os.path.join(root, file)`. -/
def joinPath (root f : String) : String := root ++ "/" ++ f

/-- Inner loop of `load_dataset`: `for file in files: if file.lower()
.endswith('.wav'): audio_paths.append(...); if len(audio_paths) >=
max_files: break`. -/
def addFiles (root : String) (maxFiles : Nat) : List String → List String → List String
  | [], acc => acc
  | f :: fs, acc =>
    if isWav f then
      let acc' := acc ++ [joinPath root f]
      if maxFiles ≤ acc'.length then acc'
      else addFiles root maxFiles fs acc'
    else addFiles root maxFiles fs acc

/-- Outer loop of `load_dataset` over `os.walk(dataset_dir)` (modelled as
the list of `(root, files)` pairs the walk yields): after each directory,
`if len(audio_paths) >= max_files: break`. -/
def walkFiles (maxFiles : Nat) : List (String × List String) → List String → List String
  | [], acc => acc
  | (root, files) :: rest, acc =>
    let acc' := addFiles root maxFiles files acc
    if maxFiles ≤ acc'.length then acc'
    else walkFiles maxFiles rest acc'

/-- `load_dataset(dataset_dir, max_files)`: collect capped `.wav` paths;
`raise FileNotFoundError` when none were found. -/
def load_dataset (walk : List (String × List String)) (maxFiles : Nat) :
    Except String (List String) :=
  let audio_paths := walkFiles maxFiles walk []
  if audio_paths.isEmpty then .error "No audio files found" else .ok audio_paths

/-- The externally determined outcome of processing one file in the audio
benchmark loop: `preprocess_audio` may return `None` (its internal
`except` catches any error), and `set_tensor` / `invoke` may raise (caught
by the loop's broad `except`); otherwise the sample succeeds with a
latency and the two simulated usage samples drawn by `np.random.uniform`. -/
inductive SampleOutcome where
  | preprocessFail
  | setTensorFail
  | invokeFail
  | success (infTime cpu mem : ℚ)
deriving DecidableEq

/-- Whether `interpreter.invoke()` is reached for this outcome. -/
def invokeAttempted : SampleOutcome → Bool
  | .invokeFail => true
  | .success _ _ _ => true
  | _ => false

def isSuccess : SampleOutcome → Bool
  | .success _ _ _ => true
  | _ => false

/-- The latency a successful sample appends, if any. -/
def timeOf : SampleOutcome → Option ℚ
  | .success t _ _ => some t
  | _ => none

/-- The `(inference_time, cpu, mem)` triple a successful sample appends. -/
def tripleOf : SampleOutcome → Option (ℚ × ℚ × ℚ)
  | .success t c m => some (t, c, m)
  | _ => none

/-- The simulated CPU sample a successful iteration appends. -/
def cpuOf : SampleOutcome → Option ℚ
  | .success _ c _ => some c
  | _ => none

/-- The simulated memory sample a successful iteration appends. -/
def memOf : SampleOutcome → Option ℚ
  | .success _ _ m => some m
  | _ => none

/-- Whether `preprocess_audio` returned `None` for this outcome. -/
def isPreprocessFail : SampleOutcome → Bool
  | .preprocessFail => true
  | _ => false

/-- The error line printed for a failing sample: `preprocess_audio` prints
`Error processing {path}: {e}` and returns `None`; the loop's `except`
prints `Error processing file {path}: {e}`.  (The exception text is
elided.) -/
def logOf (p : String) : SampleOutcome → Option String
  | .preprocessFail => some ("Error processing " ++ p)
  | .setTensorFail => some ("Error processing file " ++ p)
  | .invokeFail => some ("Error processing file " ++ p)
  | .success _ _ _ => none

/-- Accumulated state of `run_benchmark`'s loop: the three metric lists,
plus (for the proofs) the trace of paths on which `invoke` was attempted
and the printed error lines. -/
structure RunState where
  inference_times : List ℚ
  cpu_usages : List ℚ
  memory_usages : List ℚ
  invoked : List String
  log : List String
deriving DecidableEq

def initState : RunState := ⟨[], [], [], [], []⟩

/-- One iteration of the loop in `run_benchmark`: skip on preprocessing
failure, catch-and-continue on an inference-path exception, append to all
three metric lists on success. -/
def stepSample (o : String → SampleOutcome) (s : RunState) (p : String) : RunState :=
  match o p with
  | .preprocessFail => { s with log := s.log ++ ["Error processing " ++ p] }
  | .setTensorFail => { s with log := s.log ++ ["Error processing file " ++ p] }
  | .invokeFail =>
      { s with invoked := s.invoked ++ [p],
               log := s.log ++ ["Error processing file " ++ p] }
  | .success t c m =>
      { s with inference_times := s.inference_times ++ [t],
               cpu_usages := s.cpu_usages ++ [c],
               memory_usages := s.memory_usages ++ [m],
               invoked := s.invoked ++ [p] }

/-- `run_benchmark(interpreter, dataset_paths)`: the whole loop. -/
def run_benchmark (o : String → SampleOutcome) (paths : List String) : RunState :=
  paths.foldl (stepSample o) initState

/-- One row written by `save_results_to_csv`'s loop body
(`[i + 1, inference_times[i], cpu_usages[i], memory_usages[i]]`), with the
`Option` bind modelling the `IndexError` an out-of-range index would
raise.  The loop iterates `i in range(len(inference_times))`, so the
latency list itself is walked structurally while the other two lists are
indexed. -/
def writeRows (cpu mem : List ℚ) : List ℚ → Nat → Option (List (List CsvField))
  | [], _ => some []
  | t :: ts, i => do
    let c ← cpu[i]?
    let m ← mem[i]?
    let rest ← writeRows cpu mem ts (i + 1)
    pure ([CsvField.nat (i + 1), CsvField.rat t, CsvField.rat c, CsvField.rat m] :: rest)

/-- The data rows the audio CSV writer produces for a list of
`(inference_time, cpu, mem)` triples starting at iteration index `i`:
the closed form `writeRows` reaches on in-range inputs. -/
def mkRows : List (ℚ × ℚ × ℚ) → Nat → List (List CsvField)
  | [], _ => []
  | (t, c, m) :: rest, i =>
    [CsvField.nat (i + 1), CsvField.rat t, CsvField.rat c, CsvField.rat m] :: mkRows rest (i + 1)

/-- The header row of the audio CSV. -/
def audioHeader : List CsvField :=
  [.str "Iteration", .str "Inference Time (s)", .str "CPU Usage (%)", .str "Memory Usage (%)"]

/-- `save_results_to_csv(inference_times, cpu_usages, memory_usages)`:
the rows of the written CSV file, header first; `none` models an
uncaught `IndexError`. -/
def save_results_to_csv (inf cpu mem : List ℚ) : Option (List (List CsvField)) :=
  (writeRows cpu mem inf 0).map (audioHeader :: ·)

/-- External success/failure of each of the three renders in
`save_visualizations`. -/
structure VizEnv where
  histOk : Bool
  cpuPlotOk : Bool
  memPlotOk : Bool

/-- `save_visualizations(...)`: three sequential renders with no error
handling. -/
def save_visualizations (e : VizEnv) : List String × Option String :=
  renderPlots
    [⟨"inference_time_distribution.png", e.histOk⟩,
     ⟨"cpu_usage_plot.png", e.cpuPlotOk⟩,
     ⟨"memory_usage_plot.png", e.memPlotOk⟩]

/-- The tail of `main()` after `run_benchmark` returns: first
`save_visualizations`, then `save_results_to_csv`.  An exception escaping
the former aborts `main` before the CSV is opened; the result is the CSV
contents (if written) and the plot files written. -/
def main_report (e : VizEnv) (inf cpu mem : List ℚ) :
    Option (List (List CsvField)) × List String :=
  let vz := save_visualizations e
  match vz.2 with
  | some _ => (none, vz.1)
  | none => (save_results_to_csv inf cpu mem, vz.1)

/-! #### Shape semantics of `preprocess_audio` -/

/-- Shape of `np.fft.rfft(audio, n)`: a 1-D array of `n / 2 + 1` bins. -/
def rfft_shape (n : Nat) : List Nat := [n / 2 + 1]

/-- Shape of `np.resize(a, target)`: always exactly `target` (numpy
repeats or truncates the data to fill). -/
def np_resize_shape (_src target : List Nat) : List Nat := target

/-- Shape computed by `preprocess_audio(file_path, input_shape)` on a file
whose preprocessing succeeds; `input_shape` is the model's declared shape
minus the batch axis (`input_details[0]['shape'][1:]`). -/
def preprocess_audio_shape (input_shape : List Nat) : List Nat :=
  let spectrogram := rfft_shape ((input_shape.getLast?).getD 0)
  let spectrogram := np_resize_shape spectrogram input_shape.dropLast
  let spectrogram := expand_dims_last spectrogram
  expand_dims_batch spectrogram

/-! #### Timed model of the audio loop -/

/-- Wall-clock booking of one iteration of the audio loop: the duration
each external call consumes on the monotone `time.perf_counter` clock,
and whether it succeeds.  `metricsDur` covers the `np.random` draws and
appends after the timing window. -/
structure AudioTiming where
  preprocessOk : Bool
  preprocessDur : ℚ
  setTensorOk : Bool
  setTensorDur : ℚ
  invokeOk : Bool
  invokeDur : ℚ
  metricsDur : ℚ

/-- The audio loop with an explicit clock: `start_time =
time.perf_counter()` is read after `set_tensor` returns, `end_time` right
after `invoke` returns, and `end_time - start_time` is recorded.  Returns
the final clock value and the recorded latencies. -/
def run_benchmark_timed (tm : String → AudioTiming) : List String → ℚ → ℚ × List ℚ
  | [], clock => (clock, [])
  | p :: ps, clock =>
    let s := tm p
    let c1 := clock + s.preprocessDur
    if s.preprocessOk = false then run_benchmark_timed tm ps c1
    else
      let c2 := c1 + s.setTensorDur
      if s.setTensorOk = false then run_benchmark_timed tm ps c2
      else
        let start_time := c2
        let c3 := c2 + s.invokeDur
        if s.invokeOk = false then run_benchmark_timed tm ps c3
        else
          let end_time := c3
          let inference_time := end_time - start_time
          let c4 := c3 + s.metricsDur
          let r := run_benchmark_timed tm ps c4
          (r.1, inference_time :: r.2)

end KWS

namespace MNV2

/-! ### Image variant: `mobileNetV2/run_benchmark.py` -/

/-- `f.lower().endswith(('.png', '.jpg', '.jpeg'))`. -/
def isImage (f : String) : Bool :=
  endsWithStr (lower f) ".png" || endsWithStr (lower f) ".jpg" || endsWithStr (lower f) ".jpeg"

/-- `load_dataset(dataset_dir)`: filter `os.listdir` by the extension
allow-list, join with the directory, `raise FileNotFoundError` when the
result is empty.  (No maximum-count cap in this variant.) -/
def load_dataset (dir : String) (listing : List String) : Except String (List String) :=
  let image_paths := (listing.filter isImage).map (fun f => dir ++ "/" ++ f)
  if image_paths.isEmpty then .error ("No image files found in " ++ dir) else .ok image_paths

/-- Outcome of one iteration of the image loop.  This variant wraps
nothing in `try`: a raise from `Image.open`/preprocessing, `set_tensor`,
`invoke` or `get_tensor` propagates out of `run_benchmark`.  A successful
sample carries the latency, the `psutil` CPU samples before and after,
the memory samples before and after, and the flattened output tensor. -/
inductive ImgOutcome where
  | preprocessRaise
  | setTensorRaise
  | invokeRaise
  | getTensorRaise
  | success (infTime cpuBefore cpuAfter memBefore memAfter : ℚ) (output : List ℚ)
deriving DecidableEq

def isSuccess : ImgOutcome → Bool
  | .success _ _ _ _ _ _ => true
  | _ => false

def infTimeOf : ImgOutcome → ℚ
  | .success t _ _ _ _ _ => t
  | _ => 0

def cpuBeforeOf : ImgOutcome → ℚ
  | .success _ cb _ _ _ _ => cb
  | _ => 0

def cpuAfterOf : ImgOutcome → ℚ
  | .success _ _ ca _ _ _ => ca
  | _ => 0

def memAfterOf : ImgOutcome → ℚ
  | .success _ _ _ _ ma _ => ma
  | _ => 0

def outputOf : ImgOutcome → List ℚ
  | .success _ _ _ _ _ out => out
  | _ => []

/-- Accumulated lists of the image `run_benchmark`. -/
structure ImgState where
  inference_times : List ℚ
  predictions : List (List ℚ)
  confidence_scores : List ℚ
  cpu_usages : List ℚ
  memory_usages : List ℚ
deriving DecidableEq

def initState : ImgState := ⟨[], [], [], [], []⟩

/-- The loop of the image `run_benchmark`: an exception in any iteration
propagates (`.error` with the failing path); a successful iteration
appends the latency, the averaged CPU sample `(cpu_before +
cpu_after) / 2`, the end-of-inference memory sample `mem_after`, the raw
output tensor, and `np.max(output)`. -/
def run_loop (o : String → ImgOutcome) : List String → ImgState → Except String ImgState
  | [], s => .ok s
  | p :: ps, s =>
    match o p with
    | .preprocessRaise => .error p
    | .setTensorRaise => .error p
    | .invokeRaise => .error p
    | .getTensorRaise => .error p
    | .success t cb ca _mb ma out =>
        run_loop o ps
          { inference_times := s.inference_times ++ [t],
            predictions := s.predictions ++ [out],
            confidence_scores := s.confidence_scores ++ [np_max out],
            cpu_usages := s.cpu_usages ++ [(cb + ca) / 2],
            memory_usages := s.memory_usages ++ [ma] }

/-- `run_benchmark(interpreter, dataset_paths)` of the image variant. -/
def run_benchmark (o : String → ImgOutcome) (paths : List String) : Except String ImgState :=
  run_loop o paths initState

/-- One row of the image CSV: `[i + 1, inference_times[i],
np.argmax(predictions[i]), confidence_scores[i], cpu_usages[i],
memory_usages[i]]`. -/
def writeRows (preds : List (List ℚ)) (confs cpus mems : List ℚ) :
    List ℚ → Nat → Option (List (List CsvField))
  | [], _ => some []
  | t :: ts, i => do
    let pd ← preds[i]?
    let cf ← confs[i]?
    let cp ← cpus[i]?
    let mm ← mems[i]?
    let rest ← writeRows preds confs cpus mems ts (i + 1)
    pure ([CsvField.nat (i + 1), CsvField.rat t, CsvField.nat (np_argmax pd),
           CsvField.rat cf, CsvField.rat cp, CsvField.rat mm] :: rest)

/-- The header row of the image CSV. -/
def imgHeader : List CsvField :=
  [.str "Iteration", .str "Inference Time (s)", .str "Predicted Label",
   .str "Confidence Score", .str "CPU Usage (%)", .str "Memory Usage (%)"]

/-- `save_results_to_csv(...)` of the image variant. -/
def save_results_to_csv (s : ImgState) : Option (List (List CsvField)) :=
  (writeRows s.predictions s.confidence_scores s.cpu_usages s.memory_usages
      s.inference_times 0).map (imgHeader :: ·)

/-- External success/failure of the five renders in the image
`save_visualizations`. -/
structure VizEnv where
  histOk : Bool
  cpuPlotOk : Bool
  memPlotOk : Bool
  confPlotOk : Bool
  predPlotOk : Bool

/-- The image `save_visualizations`: five sequential renders, no error
handling. -/
def save_visualizations (e : VizEnv) : List String × Option String :=
  renderPlots
    [⟨"inference_time_distribution.png", e.histOk⟩,
     ⟨"cpu_usage_plot.png", e.cpuPlotOk⟩,
     ⟨"memory_usage_plot.png", e.memPlotOk⟩,
     ⟨"mobilenet_confidence_scores_plot.png", e.confPlotOk⟩,
     ⟨"mobilenet_predicted_labels_plot.png", e.predPlotOk⟩]

/-- The image `main()` from `run_benchmark` on: a raise inside the loop
aborts before any plotting or CSV writing; otherwise the plots render in
order and, when all succeed, the CSV is written last. -/
def main_from_run (o : String → ImgOutcome) (paths : List String) (e : VizEnv) :
    Option (List (List CsvField)) × List String :=
  match run_benchmark o paths with
  | .error _ => (none, [])
  | .ok s =>
    let vz := save_visualizations e
    match vz.2 with
    | some _ => (none, vz.1)
    | none => (save_results_to_csv s, vz.1)

/-! #### Shape semantics of `preprocess_image` -/

/-- Shape of `np.transpose(a, (2, 0, 1))` on a 3-D array. -/
def np_transpose201_shape (s : List Nat) : List Nat :=
  [s.getD 2 0, s.getD 0 0, s.getD 1 0]

/-- Shape computed by `preprocess_image(image_path, input_shape)`, where
`input_shape` is the model's full declared shape: the PIL image is
converted to RGB, resized to `(input_shape[3], input_shape[2])`, giving a
numpy array of shape `[height, width, 3]`, transposed to channel-first
and batch-expanded. -/
def preprocess_image_shape (input_shape : List Nat) : List Nat :=
  let h := input_shape.getD 2 0
  let w := input_shape.getD 3 0
  let img_array := [h, w, 3]
  let img_array := np_transpose201_shape img_array
  expand_dims_batch img_array

/-! #### Timed model of the image loop (completing runs) -/

/-- Wall-clock booking of one iteration of the image loop.
`psutilBeforeDur` covers the two OS samples before the timing window;
`psutilAfterDur` the two after it; `outputDur` the `get_tensor` and list
appends. -/
structure ImageTiming where
  preprocessDur : ℚ
  setTensorDur : ℚ
  psutilBeforeDur : ℚ
  invokeDur : ℚ
  psutilAfterDur : ℚ
  outputDur : ℚ

/-- The image loop with an explicit clock, on a run where every sample
succeeds: `start_time` is read after the pre-inference `psutil` samples,
`end_time` right after `invoke`, before the post-inference samples and
`get_tensor`. -/
def run_benchmark_timed (tm : String → ImageTiming) : List String → ℚ → ℚ × List ℚ
  | [], clock => (clock, [])
  | p :: ps, clock =>
    let s := tm p
    let c1 := clock + s.preprocessDur + s.setTensorDur + s.psutilBeforeDur
    let start_time := c1
    let c2 := c1 + s.invokeDur
    let end_time := c2
    let inference_time := end_time - start_time
    let c3 := c2 + s.psutilAfterDur + s.outputDur
    let r := run_benchmark_timed tm ps c3
    (r.1, inference_time :: r.2)

end MNV2

/-! ### Concrete environments for counterexamples and witnesses -/

/-- Image-variant outcome where the second of three files is a corrupt
image: `Image.open` raises during preprocessing. -/
def oCorrupt : String → MNV2.ImgOutcome := fun p =>
  if p = "img2.jpg" then .preprocessRaise else .success 1 2 4 3 5 [1, 2]

/-- Image-variant outcome where `invoke` raises on the second file. -/
def oEngineFail : String → MNV2.ImgOutcome := fun p =>
  if p = "b.jpg" then .invokeRaise else .success 1 2 4 3 5 [2, 1]

/-- Image-variant outcome with memory 0% before and 10% after inference. -/
def oMem : String → MNV2.ImgOutcome := fun _ => .success 1 2 4 0 10 [3]

/-- Audio-variant outcome where one named file fails preprocessing. -/
def oAudioMix : String → KWS.SampleOutcome := fun p =>
  if p = "bad.wav" then .preprocessFail
  else if p = "eng.wav" then .invokeFail
  else .success 1 2 3

/-- Audio timing where preprocessing is artificially slow (1000 s) and
inference takes 2 s. -/
def tmSlow : String → KWS.AudioTiming := fun _ => ⟨true, 1000, true, 1, true, 2, 1⟩

/-- Image timing with slow preprocessing and 3 s inference. -/
def tmSlowImg : String → MNV2.ImageTiming := fun _ => ⟨1000, 1, 1, 3, 1, 1⟩

/-! ## Helper lemmas -/

namespace KWS

theorem stepSample_eq (o : String → SampleOutcome) (s : RunState) (p : String) :
    stepSample o s p =
      ⟨s.inference_times ++ (timeOf (o p)).toList,
       s.cpu_usages ++ (cpuOf (o p)).toList,
       s.memory_usages ++ (memOf (o p)).toList,
       s.invoked ++ (if invokeAttempted (o p) then [p] else []),
       s.log ++ (logOf p (o p)).toList⟩ := by
  cases h : o p <;> simp [stepSample, timeOf, cpuOf, memOf, invokeAttempted, logOf, h]

theorem foldl_stepSample (o : String → SampleOutcome) (paths : List String) :
    ∀ s : RunState,
      paths.foldl (stepSample o) s =
        ⟨s.inference_times ++ paths.filterMap (fun p => timeOf (o p)),
         s.cpu_usages ++ paths.filterMap (fun p => cpuOf (o p)),
         s.memory_usages ++ paths.filterMap (fun p => memOf (o p)),
         s.invoked ++ paths.filter (fun p => invokeAttempted (o p)),
         s.log ++ paths.filterMap (fun p => logOf p (o p))⟩ := by
  induction paths with
  | nil => intro s; simp
  | cons p ps ih =>
    intro s
    rw [List.foldl_cons, stepSample_eq, ih]
    cases h : o p <;>
      simp [timeOf, cpuOf, memOf, invokeAttempted, logOf, h, List.filterMap_cons,
        List.filter_cons, List.append_assoc]

theorem run_benchmark_eq (o : String → SampleOutcome) (paths : List String) :
    run_benchmark o paths =
      ⟨paths.filterMap (fun p => timeOf (o p)),
       paths.filterMap (fun p => cpuOf (o p)),
       paths.filterMap (fun p => memOf (o p)),
       paths.filter (fun p => invokeAttempted (o p)),
       paths.filterMap (fun p => logOf p (o p))⟩ := by
  rw [run_benchmark, foldl_stepSample]
  simp [initState]

theorem filterMap_timeOf_eq (o : String → SampleOutcome) (paths : List String) :
    paths.filterMap (fun p => timeOf (o p))
      = (paths.filterMap (fun p => tripleOf (o p))).map (fun x => x.1) := by
  induction paths with
  | nil => rfl
  | cons p ps ih =>
    cases h : o p <;> simp [timeOf, tripleOf, h] <;> simpa [timeOf, tripleOf] using ih

theorem filterMap_cpuOf_eq (o : String → SampleOutcome) (paths : List String) :
    paths.filterMap (fun p => cpuOf (o p))
      = (paths.filterMap (fun p => tripleOf (o p))).map (fun x => x.2.1) := by
  induction paths with
  | nil => rfl
  | cons p ps ih =>
    cases h : o p <;> simp [cpuOf, tripleOf, h] <;> simpa [cpuOf, tripleOf] using ih

theorem filterMap_memOf_eq (o : String → SampleOutcome) (paths : List String) :
    paths.filterMap (fun p => memOf (o p))
      = (paths.filterMap (fun p => tripleOf (o p))).map (fun x => x.2.2) := by
  induction paths with
  | nil => rfl
  | cons p ps ih =>
    cases h : o p <;> simp [memOf, tripleOf, h] <;> simpa [memOf, tripleOf] using ih

theorem mkRows_length : ∀ (l : List (ℚ × ℚ × ℚ)) (i : Nat), (mkRows l i).length = l.length
  | [], _ => rfl
  | (t, c, m) :: rest, i => by simp [mkRows, mkRows_length rest]

theorem filterMap_tripleOf_length (o : String → SampleOutcome) (paths : List String) :
    (paths.filterMap (fun p => tripleOf (o p))).length
      = (paths.filter (fun p => isSuccess (o p))).length := by
  induction paths with
  | nil => rfl
  | cons p ps ih =>
    cases h : o p <;> simp [tripleOf, isSuccess, h] <;> simpa [tripleOf, isSuccess] using ih

end KWS

theorem length_filter_partition {α : Type} (p : α → Bool) (l : List α) :
    (l.filter p).length + (l.filter (fun a => ! p a)).length = l.length := by
  induction l with
  | nil => rfl
  | cons a l ih =>
    cases h : p a <;> simp [List.filter_cons, h] <;> omega

namespace KWS

theorem writeRows_proj (f1 f2 f3 : (ℚ × ℚ × ℚ) → ℚ)
    (hf1 : f1 = fun x => x.1) (hf2 : f2 = fun x => x.2.1) (hf3 : f3 = fun x => x.2.2) :
    ∀ (todo : List (ℚ × ℚ × ℚ)) (i : Nat) (pre2 pre3 : List ℚ),
      pre2.length = i → pre3.length = i →
      writeRows (pre2 ++ todo.map f2) (pre3 ++ todo.map f3) (todo.map f1) i
        = some (mkRows todo i) := by
  intro todo
  induction todo with
  | nil => intro i pre2 pre3 _ _; simp [writeRows, mkRows]
  | cons x rest ih =>
    intro i pre2 pre3 h2 h3
    obtain ⟨t, c, m⟩ := x
    have hc : (pre2 ++ ((t, c, m) :: rest).map f2)[i]? = some c := by
      rw [← h2, List.getElem?_append_right (le_refl _)]
      simp [hf2]
    have hm : (pre3 ++ ((t, c, m) :: rest).map f3)[i]? = some m := by
      rw [← h3, List.getElem?_append_right (le_refl _)]
      simp [hf3]
    have hrec := ih (i + 1) (pre2 ++ [c]) (pre3 ++ [m]) (by simp [h2]) (by simp [h3])
    rw [List.append_assoc, List.append_assoc, List.singleton_append, List.singleton_append]
      at hrec
    simp only [List.map_cons, hf1, hf2, hf3] at hrec ⊢
    simp only [hf2, List.map_cons] at hc
    simp only [hf3, List.map_cons] at hm
    simp [writeRows, mkRows, hc, hm, hrec]

theorem writeRows_some (cpu mem : List ℚ) :
    ∀ (ts : List ℚ) (i : Nat),
      i + ts.length ≤ cpu.length → i + ts.length ≤ mem.length →
      ∃ rows, writeRows cpu mem ts i = some rows ∧ rows.length = ts.length
        ∧ ∀ r ∈ rows, r.length = 4 := by
  intro ts
  induction ts with
  | nil => intro i _ _; exact ⟨[], rfl, rfl, by simp⟩
  | cons t ts ih =>
    intro i h1 h2
    have hc : i < cpu.length := by simp at h1; omega
    have hm : i < mem.length := by simp at h2; omega
    obtain ⟨rows, hrows, hlen, hall⟩ := ih (i + 1) (by simp at h1 ⊢; omega) (by simp at h2 ⊢; omega)
    refine ⟨[CsvField.nat (i + 1), CsvField.rat t, CsvField.rat cpu[i], CsvField.rat mem[i]]
      :: rows, ?_, ?_, ?_⟩
    · simp [writeRows, List.getElem?_eq_getElem hc, List.getElem?_eq_getElem hm, hrows]
    · simp [hlen]
    · intro r hr
      rcases List.mem_cons.mp hr with h | h
      · simp [h]
      · exact hall r h

end KWS

namespace MNV2

theorem run_loop_ok (o : String → ImgOutcome) :
    ∀ (paths : List String) (s s' : ImgState),
      run_loop o paths s = .ok s' →
        (∀ p ∈ paths, isSuccess (o p) = true) ∧
        s' = ⟨s.inference_times ++ paths.map (fun p => infTimeOf (o p)),
              s.predictions ++ paths.map (fun p => outputOf (o p)),
              s.confidence_scores ++ paths.map (fun p => np_max (outputOf (o p))),
              s.cpu_usages ++ paths.map (fun p => (cpuBeforeOf (o p) + cpuAfterOf (o p)) / 2),
              s.memory_usages ++ paths.map (fun p => memAfterOf (o p))⟩ := by
  intro paths
  induction paths with
  | nil =>
    intro s s' h
    simp only [run_loop] at h
    cases h
    simp
  | cons p ps ih =>
    intro s s' h
    cases hp : o p <;> rw [run_loop, hp] at h
    case preprocessRaise => cases h
    case setTensorRaise => cases h
    case invokeRaise => cases h
    case getTensorRaise => cases h
    case success t cb ca mb ma out =>
      obtain ⟨hall, hs'⟩ := ih _ _ h
      constructor
      · intro q hq
        rcases List.mem_cons.mp hq with hq | hq
        · subst hq; simp [isSuccess, hp]
        · exact hall q hq
      · rw [hs']
        simp [isSuccess, infTimeOf, outputOf, cpuBeforeOf, cpuAfterOf, memAfterOf, hp,
          List.append_assoc]

theorem run_loop_error_iff (o : String → ImgOutcome) :
    ∀ (paths : List String) (s : ImgState),
      (∃ e, run_loop o paths s = .error e) ↔ ∃ p ∈ paths, isSuccess (o p) = false := by
  intro paths
  induction paths with
  | nil => intro s; simp [run_loop]
  | cons p ps ih =>
    intro s
    cases hp : o p
    case success t cb ca mb ma out =>
      rw [run_loop, hp, ih]
      constructor
      · rintro ⟨q, hq, hfq⟩
        exact ⟨q, List.mem_cons_of_mem p hq, hfq⟩
      · rintro ⟨q, hq, hfq⟩
        rcases List.mem_cons.mp hq with rfl | hq
        · rw [hp] at hfq
          simp [isSuccess] at hfq
        · exact ⟨q, hq, hfq⟩
    all_goals
      rw [run_loop, hp]
      constructor
      · intro _
        exact ⟨p, List.mem_cons_self p ps, by simp [isSuccess, hp]⟩
      · intro _
        exact ⟨p, rfl⟩

theorem writeRowsImg_some (preds : List (List ℚ)) (confs cpus mems : List ℚ) :
    ∀ (ts : List ℚ) (i : Nat),
      i + ts.length ≤ preds.length → i + ts.length ≤ confs.length →
      i + ts.length ≤ cpus.length → i + ts.length ≤ mems.length →
      ∃ rows, writeRows preds confs cpus mems ts i = some rows ∧ rows.length = ts.length
        ∧ ∀ r ∈ rows, r.length = 6 := by
  intro ts
  induction ts with
  | nil => intro i _ _ _ _; exact ⟨[], rfl, rfl, by simp⟩
  | cons t ts ih =>
    intro i h1 h2 h3 h4
    have k1 : i < preds.length := by simp at h1; omega
    have k2 : i < confs.length := by simp at h2; omega
    have k3 : i < cpus.length := by simp at h3; omega
    have k4 : i < mems.length := by simp at h4; omega
    obtain ⟨rows, hrows, hlen, hall⟩ := ih (i + 1) (by simp at h1 ⊢; omega)
      (by simp at h2 ⊢; omega) (by simp at h3 ⊢; omega) (by simp at h4 ⊢; omega)
    refine ⟨[CsvField.nat (i + 1), CsvField.rat t, CsvField.nat (np_argmax preds[i]),
        CsvField.rat confs[i], CsvField.rat cpus[i], CsvField.rat mems[i]] :: rows, ?_, ?_, ?_⟩
    · simp [writeRows, List.getElem?_eq_getElem k1, List.getElem?_eq_getElem k2,
        List.getElem?_eq_getElem k3, List.getElem?_eq_getElem k4, hrows]
    · simp [hlen]
    · intro r hr
      rcases List.mem_cons.mp hr with h | h
      · simp [h]
      · exact hall r h

end MNV2

namespace KWS

theorem addFiles_extends (root : String) (m : Nat) :
    ∀ (fs acc : List String), ∃ ex, addFiles root m fs acc = acc ++ ex := by
  intro fs
  induction fs with
  | nil => exact fun acc => ⟨[], by simp [addFiles]⟩
  | cons f fs ih =>
    intro acc
    by_cases hw : isWav f = true
    · rw [addFiles, if_pos hw]
      by_cases hm : m ≤ (acc ++ [joinPath root f]).length
      · rw [if_pos hm]
        exact ⟨[joinPath root f], rfl⟩
      · rw [if_neg hm]
        obtain ⟨ex, hex⟩ := ih (acc ++ [joinPath root f])
        rw [hex, List.append_assoc]
        exact ⟨[joinPath root f] ++ ex, rfl⟩
    · rw [addFiles, if_neg hw]
      exact ih acc

theorem addFiles_le (root : String) (m : Nat) :
    ∀ (fs acc : List String), acc.length < m → (addFiles root m fs acc).length ≤ m := by
  intro fs
  induction fs with
  | nil => intro acc h; rw [addFiles]; omega
  | cons f fs ih =>
    intro acc h
    by_cases hw : isWav f = true
    · rw [addFiles, if_pos hw]
      by_cases hm : m ≤ (acc ++ [joinPath root f]).length
      · rw [if_pos hm]
        simp only [List.length_append, List.length_cons, List.length_nil, Nat.zero_add]
        omega
      · rw [if_neg hm]
        refine ih (acc ++ [joinPath root f]) ?_
        simp only [List.length_append, List.length_cons, List.length_nil, Nat.zero_add] at hm ⊢
        omega
    · rw [addFiles, if_neg hw]
      exact ih acc h

theorem addFiles_no_wav (root : String) (m : Nat) :
    ∀ (fs acc : List String), (∀ f ∈ fs, isWav f = false) → addFiles root m fs acc = acc := by
  intro fs
  induction fs with
  | nil => intro acc _; rfl
  | cons f fs ih =>
    intro acc hall
    have hw : isWav f = false := hall f (List.mem_cons_self f fs)
    rw [addFiles, if_neg (by simp [hw])]
    exact ih acc (fun g hg => hall g (List.mem_cons_of_mem f hg))

theorem addFiles_wav_ne_nil (root : String) (m : Nat) :
    ∀ (fs acc : List String), (∃ f ∈ fs, isWav f = true) → addFiles root m fs acc ≠ [] := by
  intro fs
  induction fs with
  | nil => rintro acc ⟨f, hf, _⟩; cases hf
  | cons f fs ih =>
    rintro acc ⟨g, hg, hgw⟩
    by_cases hw : isWav f = true
    · rw [addFiles, if_pos hw]
      by_cases hm : m ≤ (acc ++ [joinPath root f]).length
      · rw [if_pos hm]
        simp
      · rw [if_neg hm]
        obtain ⟨ex, hex⟩ := addFiles_extends root m fs (acc ++ [joinPath root f])
        rw [hex]
        simp
    · rcases List.mem_cons.mp hg with rfl | hg2
      · exact absurd hgw hw
      · rw [addFiles, if_neg hw]
        exact ih acc ⟨g, hg2, hgw⟩

theorem walkFiles_extends (m : Nat) :
    ∀ (walk : List (String × List String)) (acc : List String),
      ∃ ex, walkFiles m walk acc = acc ++ ex := by
  intro walk
  induction walk with
  | nil => exact fun acc => ⟨[], by simp [walkFiles]⟩
  | cons d rest ih =>
    intro acc
    obtain ⟨root, files⟩ := d
    rw [walkFiles]
    obtain ⟨ex1, hex1⟩ := addFiles_extends root m files acc
    by_cases hm : m ≤ (addFiles root m files acc).length
    · rw [if_pos hm]
      exact ⟨ex1, hex1⟩
    · rw [if_neg hm]
      obtain ⟨ex2, hex2⟩ := ih (addFiles root m files acc)
      rw [hex2, hex1, List.append_assoc]
      exact ⟨ex1 ++ ex2, rfl⟩

theorem walkFiles_le (m : Nat) :
    ∀ (walk : List (String × List String)) (acc : List String),
      acc.length < m → (walkFiles m walk acc).length ≤ m := by
  intro walk
  induction walk with
  | nil => intro acc h; rw [walkFiles]; omega
  | cons d rest ih =>
    intro acc h
    obtain ⟨root, files⟩ := d
    rw [walkFiles]
    have h1 := addFiles_le root m files acc h
    by_cases hm : m ≤ (addFiles root m files acc).length
    · rw [if_pos hm]
      exact h1
    · rw [if_neg hm]
      exact ih _ (by omega)

theorem walkFiles_no_wav (m : Nat) :
    ∀ (walk : List (String × List String)) (acc : List String),
      (∀ d ∈ walk, ∀ f ∈ d.2, isWav f = false) → walkFiles m walk acc = acc := by
  intro walk
  induction walk with
  | nil => intro acc _; rfl
  | cons d rest ih =>
    intro acc hall
    obtain ⟨root, files⟩ := d
    rw [walkFiles]
    have h0 : addFiles root m files acc = acc :=
      addFiles_no_wav root m files acc (hall (root, files) (List.mem_cons_self _ _))
    rw [h0]
    by_cases hm : m ≤ acc.length
    · rw [if_pos hm]
    · rw [if_neg hm]
      exact ih acc (fun d hd => hall d (List.mem_cons_of_mem _ hd))

theorem walkFiles_wav_ne_nil (m : Nat) (hm0 : 0 < m) :
    ∀ (walk : List (String × List String)) (acc : List String),
      (∃ d ∈ walk, ∃ f ∈ d.2, isWav f = true) → walkFiles m walk acc ≠ [] := by
  intro walk
  induction walk with
  | nil => rintro acc ⟨d, hd, _⟩; cases hd
  | cons d0 rest ih =>
    rintro acc ⟨d, hd, f, hf, hfw⟩
    obtain ⟨root, files⟩ := d0
    rw [walkFiles]
    by_cases hm : m ≤ (addFiles root m files acc).length
    · rw [if_pos hm]
      intro hnil
      rw [hnil] at hm
      simp at hm
      omega
    · rw [if_neg hm]
      rcases List.mem_cons.mp hd with rfl | hd2
      · have hne : addFiles root m files acc ≠ [] :=
          addFiles_wav_ne_nil root m files acc ⟨f, hf, hfw⟩
        obtain ⟨ex2, hex2⟩ := walkFiles_extends m rest (addFiles root m files acc)
        rw [hex2]
        intro hcontra
        exact hne (List.append_eq_nil.mp hcontra).1
      · exact ih _ ⟨d, hd2, f, hf, hfw⟩

end KWS

namespace KWS

theorem run_benchmark_timed_snd (tm : String → AudioTiming) :
    ∀ (paths : List String) (c : ℚ),
      (run_benchmark_timed tm paths c).2
        = paths.filterMap (fun p =>
            if (tm p).preprocessOk && (tm p).setTensorOk && (tm p).invokeOk
            then some (tm p).invokeDur else none) := by
  intro paths
  induction paths with
  | nil => intro c; rfl
  | cons p ps ih =>
    intro c
    cases h1 : (tm p).preprocessOk <;> cases h2 : (tm p).setTensorOk <;>
      cases h3 : (tm p).invokeOk <;>
      simp [run_benchmark_timed, h1, h2, h3, ih, List.filterMap_cons, add_sub_cancel_left]

end KWS

namespace MNV2

theorem run_benchmark_timed_img_snd (tm : String → ImageTiming) :
    ∀ (paths : List String) (c : ℚ),
      (run_benchmark_timed tm paths c).2 = paths.map (fun p => (tm p).invokeDur) := by
  intro paths
  induction paths with
  | nil => intro c; rfl
  | cons p ps ih =>
    intro c
    simp [run_benchmark_timed, ih, add_sub_cancel_left]

end MNV2

namespace KWS

theorem filterMap_skip_preprocess {α : Type} (o : String → SampleOutcome)
    (g : SampleOutcome → Option α) (hg : g .preprocessFail = none) :
    ∀ paths : List String,
      (paths.filter (fun p => ! isPreprocessFail (o p))).filterMap (fun p => g (o p))
        = paths.filterMap (fun p => g (o p)) := by
  intro paths
  induction paths with
  | nil => rfl
  | cons p ps ih =>
    cases h : o p
    case preprocessFail =>
      have hnot : (! isPreprocessFail (o p)) = false := by rw [h]; rfl
      simp only [List.filter_cons, hnot]
      rw [if_neg (show ¬(false = true) by simp), List.filterMap_cons, h, hg]
      exact ih
    all_goals
      have hnot : (! isPreprocessFail (o p)) = true := by rw [h]; rfl
      simp only [List.filter_cons, hnot]
      rw [if_pos trivial, List.filterMap_cons, List.filterMap_cons, ih]

end KWS

/-! ## The claims -/

/-- C1 counterexample: in the image variant a corrupt second image makes
`Image.open` raise inside `preprocess_image`, which has no handler, so the
whole run aborts: `run_benchmark` propagates the error and `main` writes
no CSV at all (not a 2-row CSV) — refuting "in both the audio and the
image variant the error is caught ... a preprocessing failure never aborts
the run". -/
theorem claim1_counterexample :
    MNV2.run_benchmark oCorrupt ["img1.jpg", "img2.jpg", "img3.jpg"] = .error "img2.jpg"
    ∧ MNV2.main_from_run oCorrupt ["img1.jpg", "img2.jpg", "img3.jpg"]
        ⟨true, true, true, true, true⟩ = (none, []) := by
  constructor
  · decide
  · simp [MNV2.main_from_run, MNV2.run_benchmark, MNV2.run_loop, oCorrupt]

/-- C1 amended: in the audio variant a preprocessing error is caught, a
message naming the failing path is printed, and the sample is skipped (the
metric lists equal those of the run over the non-failing files, so the
loop continues and the run never aborts); in the image variant a
preprocessing error propagates and aborts the run. -/
theorem claim1_amended (o : String → KWS.SampleOutcome) (paths : List String)
    (oi : String → MNV2.ImgOutcome) (qaths : List String)
    (hq : ∃ q ∈ qaths, oi q = .preprocessRaise) :
    (∀ p ∈ paths, o p = .preprocessFail →
      ("Error processing " ++ p) ∈ (KWS.run_benchmark o paths).log)
    ∧ (KWS.run_benchmark o paths).inference_times
        = (KWS.run_benchmark o
            (paths.filter (fun p => ! KWS.isPreprocessFail (o p)))).inference_times
    ∧ (KWS.run_benchmark o paths).cpu_usages
        = (KWS.run_benchmark o
            (paths.filter (fun p => ! KWS.isPreprocessFail (o p)))).cpu_usages
    ∧ (KWS.run_benchmark o paths).memory_usages
        = (KWS.run_benchmark o
            (paths.filter (fun p => ! KWS.isPreprocessFail (o p)))).memory_usages
    ∧ ∃ e, MNV2.run_benchmark oi qaths = .error e := by
  refine ⟨?_, ?_, ?_, ?_, ?_⟩
  · intro p hp hfail
    rw [KWS.run_benchmark_eq]
    refine List.mem_filterMap.mpr ⟨p, hp, ?_⟩
    rw [hfail]
    rfl
  · rw [KWS.run_benchmark_eq, KWS.run_benchmark_eq]
    exact (KWS.filterMap_skip_preprocess o KWS.timeOf rfl paths).symm
  · rw [KWS.run_benchmark_eq, KWS.run_benchmark_eq]
    exact (KWS.filterMap_skip_preprocess o KWS.cpuOf rfl paths).symm
  · rw [KWS.run_benchmark_eq, KWS.run_benchmark_eq]
    exact (KWS.filterMap_skip_preprocess o KWS.memOf rfl paths).symm
  · obtain ⟨q, hqm, hqr⟩ := hq
    exact (MNV2.run_loop_error_iff oi qaths MNV2.initState).mpr
      ⟨q, hqm, by simp [MNV2.isSuccess, hqr]⟩

theorem claim1_witness :
    (∃ q ∈ ["imgA.jpg", "img2.jpg"], oCorrupt q = MNV2.ImgOutcome.preprocessRaise)
    ∧ ∃ e, MNV2.run_benchmark oCorrupt ["imgA.jpg", "img2.jpg"] = .error e := by
  have h : ∃ q ∈ ["imgA.jpg", "img2.jpg"], oCorrupt q = MNV2.ImgOutcome.preprocessRaise := by
    decide
  exact ⟨h, (claim1_amended oAudioMix ["a.wav"] oCorrupt ["imgA.jpg", "img2.jpg"] h).2.2.2.2⟩

/-- C2: for any audio-variant run, the written CSV consists of the header
followed by exactly one data row per successfully processed sample, in the
original encounter order (the rows are the `mkRows` image of the ordered
list of successful samples' triples), with `rows + failures = N`, hence
`rows = N − F ≤ N`; the latency column is the order-preserving extraction
of the successful samples.  (The cited writer and loop are the audio
variant's; the image variant's loop writes rows only when every sample
succeeded — see C10.) -/
theorem claim2 (o : String → KWS.SampleOutcome) (paths : List String) :
    ∃ rows,
      KWS.save_results_to_csv (KWS.run_benchmark o paths).inference_times
          (KWS.run_benchmark o paths).cpu_usages (KWS.run_benchmark o paths).memory_usages
        = some (KWS.audioHeader :: rows)
      ∧ rows = KWS.mkRows (paths.filterMap (fun p => KWS.tripleOf (o p))) 0
      ∧ rows.length = (paths.filter (fun p => KWS.isSuccess (o p))).length
      ∧ rows.length + (paths.filter (fun p => ! KWS.isSuccess (o p))).length = paths.length
      ∧ rows.length ≤ paths.length
      ∧ (KWS.run_benchmark o paths).inference_times
          = paths.filterMap (fun p => KWS.timeOf (o p)) := by
  have hinf : (KWS.run_benchmark o paths).inference_times
      = paths.filterMap (fun p => KWS.timeOf (o p)) := by
    rw [KWS.run_benchmark_eq]
  have hcpu : (KWS.run_benchmark o paths).cpu_usages
      = paths.filterMap (fun p => KWS.cpuOf (o p)) := by
    rw [KWS.run_benchmark_eq]
  have hmem : (KWS.run_benchmark o paths).memory_usages
      = paths.filterMap (fun p => KWS.memOf (o p)) := by
    rw [KWS.run_benchmark_eq]
  have hw := KWS.writeRows_proj (fun x => x.1) (fun x => x.2.1) (fun x => x.2.2) rfl rfl rfl
    (paths.filterMap (fun p => KWS.tripleOf (o p))) 0 [] [] rfl rfl
  simp only [List.nil_append] at hw
  refine ⟨KWS.mkRows (paths.filterMap (fun p => KWS.tripleOf (o p))) 0, ?_, rfl, ?_, ?_, ?_, hinf⟩
  · rw [KWS.save_results_to_csv, hinf, hcpu, hmem, KWS.filterMap_timeOf_eq,
      KWS.filterMap_cpuOf_eq, KWS.filterMap_memOf_eq, hw]
    rfl
  · rw [KWS.mkRows_length, KWS.filterMap_tripleOf_length]
  · rw [KWS.mkRows_length, KWS.filterMap_tripleOf_length]
    exact length_filter_partition _ paths
  · rw [KWS.mkRows_length, KWS.filterMap_tripleOf_length]
    have := length_filter_partition (fun p => KWS.isSuccess (o p)) paths
    omega

/-- C3 counterexample: in the image variant an engine-level raise during
`invoke` is NOT caught — it propagates out of `run_benchmark`, aborting
the run (and the CSV), rather than the sample being skipped. -/
theorem claim3_counterexample :
    MNV2.run_benchmark oEngineFail ["a.jpg", "b.jpg", "c.jpg"] = .error "b.jpg"
    ∧ MNV2.main_from_run oEngineFail ["a.jpg", "b.jpg", "c.jpg"]
        ⟨true, true, true, true, true⟩ = (none, []) := by
  constructor
  · decide
  · simp [MNV2.main_from_run, MNV2.run_benchmark, MNV2.run_loop, oEngineFail]

/-- C3 amended: the audio variant catches an engine-level failure broadly
and continues the loop (the recorded latencies are exactly the successful
samples' values, each path reaches `invoke` at most as often as it occurs
in the dataset list, i.e. never retried), while in the image variant an
engine-level raise during `invoke` propagates and aborts the run. -/
theorem claim3_amended (o : String → KWS.SampleOutcome) (paths : List String)
    (oi : String → MNV2.ImgOutcome) (qaths : List String) (q : String)
    (hq : q ∈ qaths) (hfail : oi q = .invokeRaise) :
    (KWS.run_benchmark o paths).inference_times
        = paths.filterMap (fun p => KWS.timeOf (o p))
    ∧ (KWS.run_benchmark o paths).invoked
        = paths.filter (fun p => KWS.invokeAttempted (o p))
    ∧ (∀ p, ((KWS.run_benchmark o paths).invoked).count p ≤ paths.count p)
    ∧ ∃ e, MNV2.run_benchmark oi qaths = .error e := by
  have hinv : (KWS.run_benchmark o paths).invoked
      = paths.filter (fun p => KWS.invokeAttempted (o p)) := by
    rw [KWS.run_benchmark_eq]
  refine ⟨by rw [KWS.run_benchmark_eq], hinv, ?_, ?_⟩
  · intro p
    rw [hinv]
    exact (List.filter_sublist paths).count_le p
  · exact (MNV2.run_loop_error_iff oi qaths MNV2.initState).mpr
      ⟨q, hq, by simp [MNV2.isSuccess, hfail]⟩

theorem claim3_witness :
    ("b.jpg" ∈ ["a.jpg", "b.jpg"] ∧ oEngineFail "b.jpg" = MNV2.ImgOutcome.invokeRaise)
    ∧ ∃ e, MNV2.run_benchmark oEngineFail ["a.jpg", "b.jpg"] = .error e := by
  refine ⟨⟨by decide, by decide⟩, ?_⟩
  exact (claim3_amended oAudioMix ["a.wav"] oEngineFail ["a.jpg", "b.jpg"] "b.jpg"
    (by decide) (by decide)).2.2.2

/-- C4 counterexample: with the maximum configured as 0, `load_dataset`
still returns one path from a one-file directory (the loop appends before
testing the cap), exceeding the configured maximum — refuting "returns at
most the configured maximum number of file paths" for every
configuration. -/
theorem claim4_counterexample :
    KWS.load_dataset [("d", ["a.wav"])] 0 = .ok ["d/a.wav"]
    ∧ 0 < (["d/a.wav"] : List String).length := by
  exact ⟨by decide, by decide⟩

/-- C4 amended: for any configured maximum `m ≥ 1` the audio enumerator
returns at most `m` paths, and (in both variants) it raises the
"no files found" error exactly when no file matches the extension
allow-list, returning a non-empty list otherwise.  (With `m = 0` the cap
can be exceeded by one — see the counterexample.) -/
theorem claim4_amended (walk : List (String × List String)) (m : Nat) (hm : 1 ≤ m)
    (dir : String) (listing : List String) :
    (KWS.walkFiles m walk []).length ≤ m
    ∧ (∀ ps, KWS.load_dataset walk m = .ok ps → ps.length ≤ m)
    ∧ ((∃ e, KWS.load_dataset walk m = .error e)
        ↔ ∀ d ∈ walk, ∀ f ∈ d.2, KWS.isWav f = false)
    ∧ (∀ ps, KWS.load_dataset walk m = .ok ps → ps ≠ [])
    ∧ ((∃ e, MNV2.load_dataset dir listing = .error e)
        ↔ ∀ f ∈ listing, MNV2.isImage f = false)
    ∧ (∀ ps, MNV2.load_dataset dir listing = .ok ps → ps ≠ []) := by
  have hcap : (KWS.walkFiles m walk []).length ≤ m :=
    KWS.walkFiles_le m walk [] (by simp; omega)
  have hempty : (KWS.walkFiles m walk []).isEmpty = true
      ↔ ∀ d ∈ walk, ∀ f ∈ d.2, KWS.isWav f = false := by
    rw [List.isEmpty_iff]
    constructor
    · intro hnil d hd f hf
      by_contra hbad
      have hw : KWS.isWav f = true := by
        cases hiw : KWS.isWav f
        · exact absurd hiw hbad
        · rfl
      exact KWS.walkFiles_wav_ne_nil m (by omega) walk [] ⟨d, hd, f, hf, hw⟩ hnil
    · intro hall
      exact KWS.walkFiles_no_wav m walk [] hall
  have hempty2 : ((listing.filter MNV2.isImage).map (fun f => dir ++ "/" ++ f)).isEmpty = true
      ↔ ∀ f ∈ listing, MNV2.isImage f = false := by
    rw [List.isEmpty_iff, List.map_eq_nil_iff, List.filter_eq_nil_iff]
    constructor
    · intro h f hf
      cases hiw : MNV2.isImage f
      · rfl
      · exact absurd hiw (h f hf)
    · intro h f hf
      rw [h f hf]
      simp
  refine ⟨hcap, ?_, ?_, ?_, ?_, ?_⟩
  · intro ps hps
    simp only [KWS.load_dataset] at hps
    split at hps
    · cases hps
    · cases hps
      exact hcap
  · simp only [KWS.load_dataset]
    split
    case isTrue htrue =>
      constructor
      · intro _
        exact hempty.mp htrue
      · intro _
        exact ⟨_, rfl⟩
    case isFalse hfalse =>
      constructor
      · rintro ⟨e, he⟩
        cases he
      · intro hall
        exact absurd (hempty.mpr hall) hfalse
  · intro ps hps
    simp only [KWS.load_dataset] at hps
    split at hps
    · cases hps
    case isFalse hfalse =>
      cases hps
      intro hnil
      rw [List.isEmpty_iff] at hfalse
      exact hfalse hnil
  · simp only [MNV2.load_dataset]
    split
    case isTrue htrue =>
      constructor
      · intro _
        exact hempty2.mp htrue
      · intro _
        exact ⟨_, rfl⟩
    case isFalse hfalse =>
      constructor
      · rintro ⟨e, he⟩
        cases he
      · intro hall
        exact absurd (hempty2.mpr hall) hfalse
  · intro ps hps
    simp only [MNV2.load_dataset] at hps
    split at hps
    · cases hps
    case isFalse hfalse =>
      cases hps
      intro hnil
      rw [List.isEmpty_iff] at hfalse
      exact hfalse hnil

theorem claim4_witness :
    1 ≤ 2
    ∧ (KWS.walkFiles 2 [("d", ["a.wav", "b.wav", "c.wav"])] []).length ≤ 2 := by
  exact ⟨by decide,
    (claim4_amended [("d", ["a.wav", "b.wav", "c.wav"])] 2 (by decide) "e" ["x.png"]).1⟩

/-- C5: for every input that preprocesses successfully, the preprocessor's
output shape equals the model's declared input shape — `[1, time,
features, 1]` for the audio model (the code receives the declared shape
minus the batch axis and rebuilds batch and channel axes of size 1) and
`[1, 3, height, width]` for the channel-first image model. -/
theorem claim5 (t f h w : Nat) :
    KWS.preprocess_audio_shape [t, f, 1] = [1, t, f, 1]
    ∧ MNV2.preprocess_image_shape [1, 3, h, w] = [1, 3, h, w]
    ∧ (KWS.preprocess_audio_shape [t, f, 1]).length = 4
    ∧ (MNV2.preprocess_image_shape [1, 3, h, w]).length = 4 := by
  refine ⟨rfl, rfl, rfl, rfl⟩

/-- C6: in both variants every recorded latency is the clock distance
between the `perf_counter` read taken right before `invoke` (after
preprocessing, tensor binding and — in the image variant — the
pre-inference OS samples) and the read taken right after it (before
output retrieval), so it equals exactly that sample's `invoke` duration,
independently of every other duration in the loop; with a monotone clock
(all durations ≥ 0) every recorded latency is ≥ 0. -/
theorem claim6 (tm : String → KWS.AudioTiming) (tmi : String → MNV2.ImageTiming)
    (paths qaths : List String) (c0 d0 : ℚ)
    (h1 : ∀ p, 0 ≤ (tm p).invokeDur) (h2 : ∀ p, 0 ≤ (tmi p).invokeDur) :
    (KWS.run_benchmark_timed tm paths c0).2
        = paths.filterMap (fun p =>
            if (tm p).preprocessOk && (tm p).setTensorOk && (tm p).invokeOk
            then some (tm p).invokeDur else none)
    ∧ (∀ x ∈ (KWS.run_benchmark_timed tm paths c0).2, 0 ≤ x)
    ∧ (MNV2.run_benchmark_timed tmi qaths d0).2 = qaths.map (fun p => (tmi p).invokeDur)
    ∧ (∀ x ∈ (MNV2.run_benchmark_timed tmi qaths d0).2, 0 ≤ x) := by
  refine ⟨KWS.run_benchmark_timed_snd tm paths c0, ?_,
    MNV2.run_benchmark_timed_img_snd tmi qaths d0, ?_⟩
  · intro x hx
    rw [KWS.run_benchmark_timed_snd] at hx
    obtain ⟨p, _, hpx⟩ := List.mem_filterMap.mp hx
    split at hpx
    · cases hpx
      exact h1 p
    · cases hpx
  · intro x hx
    rw [MNV2.run_benchmark_timed_img_snd] at hx
    obtain ⟨p, _, hpx⟩ := List.mem_map.mp hx
    rw [← hpx]
    exact h2 p

theorem claim6_witness :
    (∀ p, 0 ≤ (tmSlow p).invokeDur)
    ∧ (∀ p, 0 ≤ (tmSlowImg p).invokeDur)
    ∧ (KWS.run_benchmark_timed tmSlow ["a.wav"] 0).2
        = ["a.wav"].filterMap (fun p =>
            if (tmSlow p).preprocessOk && (tmSlow p).setTensorOk && (tmSlow p).invokeOk
            then some (tmSlow p).invokeDur else none) := by
  have h1 : ∀ p, 0 ≤ (tmSlow p).invokeDur := fun p => by norm_num [tmSlow]
  have h2 : ∀ p, 0 ≤ (tmSlowImg p).invokeDur := fun p => by norm_num [tmSlowImg]
  exact ⟨h1, h2, (claim6 tmSlow tmSlowImg ["a.wav"] ["b.jpg"] 0 0 h1 h2).1⟩

/-- C7 counterexample: in the image variant only the CPU value is a
before/after average; the recorded memory value is the post-inference
sample alone (`mem_after`).  With `mem_before = 0` and `mem_after = 10`
the run records `[10]`, not the average `[(0 + 10) / 2] = [5]`. -/
theorem claim7_counterexample :
    MNV2.run_benchmark oMem ["img1.jpg"]
      = .ok ⟨[1], [[3]], [3], [3], [10]⟩
    ∧ ((0 : ℚ) + 10) / 2 = 5
    ∧ ([(10 : ℚ)] ≠ [((0 : ℚ) + 10) / 2]) := by
  refine ⟨?_, by norm_num, by norm_num⟩
  simp [MNV2.run_benchmark, MNV2.run_loop, oMem, MNV2.initState, np_max]
  norm_num

/-- C7 amended: in the image variant, for every successfully completed
run, each recorded CPU value is the average of the OS samples taken
before and after the inference call, while each recorded memory value is
the OS sample taken after the inference call only. -/
theorem claim7_amended (o : String → MNV2.ImgOutcome) (paths : List String)
    (s : MNV2.ImgState) (h : MNV2.run_benchmark o paths = .ok s) :
    s.cpu_usages
        = paths.map (fun p => (MNV2.cpuBeforeOf (o p) + MNV2.cpuAfterOf (o p)) / 2)
    ∧ s.memory_usages = paths.map (fun p => MNV2.memAfterOf (o p)) := by
  rw [MNV2.run_benchmark] at h
  obtain ⟨-, hs⟩ := MNV2.run_loop_ok o paths MNV2.initState s h
  rw [hs]
  constructor <;> simp [MNV2.initState]

theorem claim7_witness :
    MNV2.run_benchmark oMem ["imgW.jpg"] = .ok ⟨[1], [[3]], [3], [3], [10]⟩
    ∧ (MNV2.ImgState.mk [1] [[3]] [3] [3] [10]).cpu_usages
        = ["imgW.jpg"].map (fun p => (MNV2.cpuBeforeOf (oMem p) + MNV2.cpuAfterOf (oMem p)) / 2)
    ∧ (MNV2.ImgState.mk [1] [[3]] [3] [3] [10]).memory_usages
        = ["imgW.jpg"].map (fun p => MNV2.memAfterOf (oMem p)) := by
  have h : MNV2.run_benchmark oMem ["imgW.jpg"] = .ok ⟨[1], [[3]], [3], [3], [10]⟩ := by
    simp [MNV2.run_benchmark, MNV2.run_loop, oMem, MNV2.initState, np_max]
    norm_num
  exact ⟨h, (claim7_amended oMem ["imgW.jpg"] _ h).1, (claim7_amended oMem ["imgW.jpg"] _ h).2⟩

/-- C8: in both variants the written CSV's header row has exactly as many
fields as every data row — 4 in the audio variant, 6 in the image variant
(with predicted-label and confidence columns). -/
theorem claim8 (inf cpu mem : List ℚ)
    (h1 : cpu.length = inf.length) (h2 : mem.length = inf.length)
    (s : MNV2.ImgState)
    (g1 : s.predictions.length = s.inference_times.length)
    (g2 : s.confidence_scores.length = s.inference_times.length)
    (g3 : s.cpu_usages.length = s.inference_times.length)
    (g4 : s.memory_usages.length = s.inference_times.length) :
    KWS.audioHeader.length = 4
    ∧ (∃ rows, KWS.save_results_to_csv inf cpu mem = some (KWS.audioHeader :: rows)
        ∧ ∀ r ∈ rows, r.length = KWS.audioHeader.length)
    ∧ MNV2.imgHeader.length = 6
    ∧ (∃ rows, MNV2.save_results_to_csv s = some (MNV2.imgHeader :: rows)
        ∧ ∀ r ∈ rows, r.length = MNV2.imgHeader.length) := by
  obtain ⟨rows, hrows, -, hall⟩ :=
    KWS.writeRows_some cpu mem inf 0 (by omega) (by omega)
  obtain ⟨rows2, hrows2, -, hall2⟩ :=
    MNV2.writeRowsImg_some s.predictions s.confidence_scores s.cpu_usages s.memory_usages
      s.inference_times 0 (by omega) (by omega) (by omega) (by omega)
  refine ⟨rfl, ⟨rows, ?_, fun r hr => (hall r hr).trans rfl⟩,
    rfl, ⟨rows2, ?_, fun r hr => (hall2 r hr).trans rfl⟩⟩
  · rw [KWS.save_results_to_csv, hrows]
    rfl
  · rw [MNV2.save_results_to_csv, hrows2]
    rfl

theorem claim8_witness :
    ([(5 : ℚ)].length = [(7 : ℚ)].length ∧ [(6 : ℚ)].length = [(7 : ℚ)].length)
    ∧ (∃ rows, KWS.save_results_to_csv [7] [5] [6] = some (KWS.audioHeader :: rows)
        ∧ ∀ r ∈ rows, r.length = KWS.audioHeader.length) := by
  refine ⟨⟨rfl, rfl⟩, ?_⟩
  exact (claim8 [7] [5] [6] rfl rfl ⟨[7], [[2]], [2], [5], [6]⟩ rfl rfl rfl rfl).2.1

/-- C9 counterexample: a failure while rendering the first plot (the
latency histogram) aborts `save_visualizations`, so the remaining plots
are not written and — because `main` calls `save_results_to_csv` only
after `save_visualizations` returns — the CSV is not produced either,
even though the run collected metrics. -/
theorem claim9_counterexample :
    KWS.main_report ⟨false, true, true⟩ [1] [2] [3] = (none, []) := by
  simp [KWS.main_report, KWS.save_visualizations, renderPlots]

/-- C9 amended: each plot is rendered to its own named image file (the
names are distinct), but the plots are rendered sequentially with no
per-plot error handling: a failure at the k-th plot prevents the
remaining plots, and prevents the CSV, which is written only after all
plots succeed; when every render succeeds all plot files and the CSV are
produced. -/
theorem claim9_amended (e : KWS.VizEnv) (inf cpu mem : List ℚ)
    (h1 : cpu.length = inf.length) (h2 : mem.length = inf.length)
    (ei : MNV2.VizEnv) (oi : String → MNV2.ImgOutcome) (qaths : List String) :
    List.Nodup ["inference_time_distribution.png", "cpu_usage_plot.png",
      "memory_usage_plot.png"]
    ∧ (e.histOk = false → KWS.main_report e inf cpu mem = (none, []))
    ∧ (e.histOk = true → e.cpuPlotOk = false →
        KWS.main_report e inf cpu mem = (none, ["inference_time_distribution.png"]))
    ∧ (e.histOk = true → e.cpuPlotOk = true → e.memPlotOk = false →
        KWS.main_report e inf cpu mem
          = (none, ["inference_time_distribution.png", "cpu_usage_plot.png"]))
    ∧ (e.histOk = true → e.cpuPlotOk = true → e.memPlotOk = true →
        (KWS.main_report e inf cpu mem).2
            = ["inference_time_distribution.png", "cpu_usage_plot.png",
               "memory_usage_plot.png"]
        ∧ ∃ rows, (KWS.main_report e inf cpu mem).1 = some (KWS.audioHeader :: rows))
    ∧ List.Nodup ["inference_time_distribution.png", "cpu_usage_plot.png",
        "memory_usage_plot.png", "mobilenet_confidence_scores_plot.png",
        "mobilenet_predicted_labels_plot.png"]
    ∧ ((MNV2.save_visualizations ei).2 = none →
        (MNV2.save_visualizations ei).1
          = ["inference_time_distribution.png", "cpu_usage_plot.png",
             "memory_usage_plot.png", "mobilenet_confidence_scores_plot.png",
             "mobilenet_predicted_labels_plot.png"])
    ∧ ((MNV2.save_visualizations ei).2 ≠ none →
        (MNV2.main_from_run oi qaths ei).1 = none) := by
  obtain ⟨b1, b2, b3⟩ := e
  obtain ⟨rows, hrows, -, -⟩ := KWS.writeRows_some cpu mem inf 0 (by omega) (by omega)
  have hcsv : KWS.save_results_to_csv inf cpu mem = some (KWS.audioHeader :: rows) := by
    rw [KWS.save_results_to_csv, hrows]
    rfl
  refine ⟨by decide, ?_, ?_, ?_, ?_, by decide, ?_, ?_⟩
  · intro hb1
    subst hb1
    simp [KWS.main_report, KWS.save_visualizations, renderPlots]
  · intro hb1 hb2
    subst hb1; subst hb2
    simp [KWS.main_report, KWS.save_visualizations, renderPlots]
  · intro hb1 hb2 hb3
    subst hb1; subst hb2; subst hb3
    simp [KWS.main_report, KWS.save_visualizations, renderPlots]
  · intro hb1 hb2 hb3
    subst hb1; subst hb2; subst hb3
    constructor
    · simp [KWS.main_report, KWS.save_visualizations, renderPlots]
    · exact ⟨rows, by simp [KWS.main_report, KWS.save_visualizations, renderPlots, hcsv]⟩
  · obtain ⟨c1, c2, c3, c4, c5⟩ := ei
    cases c1 <;> cases c2 <;> cases c3 <;> cases c4 <;> cases c5 <;>
      simp [MNV2.save_visualizations, renderPlots]
  · intro hvz
    cases hrun : MNV2.run_benchmark oi qaths with
    | error e => simp [MNV2.main_from_run, hrun]
    | ok s =>
      cases hv : (MNV2.save_visualizations ei).2 with
      | none => exact absurd hv hvz
      | some name => simp [MNV2.main_from_run, hrun, hv]

theorem claim9_witness :
    ([(2 : ℚ)].length = [(1 : ℚ)].length ∧ [(3 : ℚ)].length = [(1 : ℚ)].length)
    ∧ ((KWS.main_report ⟨true, true, true⟩ [1] [2] [3]).2
        = ["inference_time_distribution.png", "cpu_usage_plot.png", "memory_usage_plot.png"]
      ∧ ∃ rows, (KWS.main_report ⟨true, true, true⟩ [1] [2] [3]).1
          = some (KWS.audioHeader :: rows)) := by
  refine ⟨⟨rfl, rfl⟩, ?_⟩
  exact (claim9_amended ⟨true, true, true⟩ [1] [2] [3] rfl rfl
    ⟨true, true, true, true, true⟩ oMem []).2.2.2.2.1 rfl rfl rfl

/-- C10: after the audio loop the three metric lists always have equal
length (a sample appends to all of them or to none), and after a
completed image run all five lists have equal length (a non-completing
image iteration aborts the run before the writer is called); consequently
the CSV writer, which indexes every list by positions below the length of
the inference-times list, stays in bounds and produces a value in both
variants. -/
theorem claim10 (o : String → KWS.SampleOutcome) (paths : List String)
    (oi : String → MNV2.ImgOutcome) (qaths : List String) (s : MNV2.ImgState)
    (h : MNV2.run_benchmark oi qaths = .ok s) :
    (KWS.run_benchmark o paths).cpu_usages.length
        = (KWS.run_benchmark o paths).inference_times.length
    ∧ (KWS.run_benchmark o paths).memory_usages.length
        = (KWS.run_benchmark o paths).inference_times.length
    ∧ (∃ rows, KWS.save_results_to_csv (KWS.run_benchmark o paths).inference_times
          (KWS.run_benchmark o paths).cpu_usages (KWS.run_benchmark o paths).memory_usages
        = some rows)
    ∧ s.predictions.length = s.inference_times.length
    ∧ s.confidence_scores.length = s.inference_times.length
    ∧ s.cpu_usages.length = s.inference_times.length
    ∧ s.memory_usages.length = s.inference_times.length
    ∧ (∃ rows, MNV2.save_results_to_csv s = some rows) := by
  have hinf : (KWS.run_benchmark o paths).inference_times
      = paths.filterMap (fun p => KWS.timeOf (o p)) := by
    rw [KWS.run_benchmark_eq]
  have hcpu : (KWS.run_benchmark o paths).cpu_usages
      = paths.filterMap (fun p => KWS.cpuOf (o p)) := by
    rw [KWS.run_benchmark_eq]
  have hmem : (KWS.run_benchmark o paths).memory_usages
      = paths.filterMap (fun p => KWS.memOf (o p)) := by
    rw [KWS.run_benchmark_eq]
  have lcpu : (KWS.run_benchmark o paths).cpu_usages.length
      = (KWS.run_benchmark o paths).inference_times.length := by
    rw [hinf, hcpu, KWS.filterMap_timeOf_eq, KWS.filterMap_cpuOf_eq]
    simp
  have lmem : (KWS.run_benchmark o paths).memory_usages.length
      = (KWS.run_benchmark o paths).inference_times.length := by
    rw [hinf, hmem, KWS.filterMap_timeOf_eq, KWS.filterMap_memOf_eq]
    simp
  rw [MNV2.run_benchmark] at h
  obtain ⟨-, hs⟩ := MNV2.run_loop_ok oi qaths MNV2.initState s h
  have l1 : s.predictions.length = s.inference_times.length := by rw [hs]; simp [MNV2.initState]
  have l2 : s.confidence_scores.length = s.inference_times.length := by
    rw [hs]; simp [MNV2.initState]
  have l3 : s.cpu_usages.length = s.inference_times.length := by rw [hs]; simp [MNV2.initState]
  have l4 : s.memory_usages.length = s.inference_times.length := by
    rw [hs]; simp [MNV2.initState]
  obtain ⟨rows, hrows, -, -⟩ := KWS.writeRows_some (KWS.run_benchmark o paths).cpu_usages
    (KWS.run_benchmark o paths).memory_usages (KWS.run_benchmark o paths).inference_times 0
    (by omega) (by omega)
  obtain ⟨rows2, hrows2, -, -⟩ := MNV2.writeRowsImg_some s.predictions s.confidence_scores
    s.cpu_usages s.memory_usages s.inference_times 0 (by omega) (by omega) (by omega) (by omega)
  refine ⟨lcpu, lmem, ⟨KWS.audioHeader :: rows, ?_⟩, l1, l2, l3, l4,
    ⟨MNV2.imgHeader :: rows2, ?_⟩⟩
  · rw [KWS.save_results_to_csv, hrows]
    rfl
  · rw [MNV2.save_results_to_csv, hrows2]
    rfl

theorem claim10_witness :
    MNV2.run_benchmark oMem ["imgX.jpg"] = .ok ⟨[1], [[3]], [3], [3], [10]⟩
    ∧ (MNV2.ImgState.mk [1] [[3]] [3] [3] [10]).predictions.length
        = (MNV2.ImgState.mk [1] [[3]] [3] [3] [10]).inference_times.length
    ∧ (∃ rows, MNV2.save_results_to_csv ⟨[1], [[3]], [3], [3], [10]⟩ = some rows) := by
  have h : MNV2.run_benchmark oMem ["imgX.jpg"] = .ok ⟨[1], [[3]], [3], [3], [10]⟩ := by
    simp [MNV2.run_benchmark, MNV2.run_loop, oMem, MNV2.initState, np_max]
    norm_num
  have hc := claim10 oAudioMix ["a.wav"] oMem ["imgX.jpg"] ⟨[1], [[3]], [3], [3], [10]⟩ h
  exact ⟨h, hc.2.2.2.1, hc.2.2.2.2.2.2.2⟩
